import Mathlib

/-!
Verification of the agent tool-calling runtime of the `toy-agent` repository.

The development shallowly embeds the core runtime of `src/chat_runner.ts`
and `src/tools/tool_system.ts`:

* the stream assembler `consumeChatStream` / `accumulateToolCalls`,
* the dynamic context composer `buildRequestMessages` /
  `resolveDynamicSystemInsertIndex`,
* the tool registry and dispatcher `ToolSystem.execute` /
  `ToolSystem.handleToolCalls`,
* the bounded tool loop `runToolLoop`.

External collaborators are modelled as parameters:

* the completion service's streamed response is an oracle
  `streams : Nat -> List StreamDelta` giving the delta sequence of each
  round (in the source, the response of `generate_stream`, an opaque
  fallible stream the runner merely drains);
* the JavaScript `JSON.parse` builtin is a parameter
  `jsonParse : String -> Except String JsValue`; the `try/catch` of the
  source's `safeJsonParse` is modelled by the `Except` result;
* the ambient data of `buildDynamicNotebookSystemText` (wall clock,
  working directory, notebook snapshot) is a plain `String` parameter,
  because only the role of the synthetic message matters to the composer;
* UI calls (`this.ui.onStreamContent` and friends) are pure output and
  are dropped.

Machine integers do not occur on the modelled paths: the only numbers are
tool-call slot indices (JavaScript array indices, modelled as `Nat`) and
JSON number payloads (modelled as `Int`; no claim depends on float
semantics).
-/

/-! ## JavaScript values as produced by JSON.parse -/

/-- The values `JSON.parse` can return. Numbers are modelled as `Int`. -/
inductive JsValue where
  | nullV
  | boolV (b : Bool)
  | numV (n : Int)
  | strV (s : String)
  | arrV (elems : List JsValue)
  | objV (fields : List (String × JsValue))

/-- The JavaScript `typeof` operator on a parsed JSON value.  Note that
`typeof null` and `typeof` of an array are both `"object"`. -/
def jsTypeof : JsValue → String
  | .nullV => "object"
  | .boolV _ => "boolean"
  | .numV _ => "number"
  | .strV _ => "string"
  | .arrV _ => "object"
  | .objV _ => "object"

/-- The JavaScript `=== null` test on a parsed JSON value. -/
def jsIsNull : JsValue → Bool
  | .nullV => true
  | _ => false

/-! ## Data model: tool calls and chat messages -/

/-- The `function` field of a `ToolCallLike` (tool_system.ts). -/
structure ToolCallFunction where
  name : String
  arguments : String
deriving DecidableEq, Repr

/-- `ToolCallLike` of tool_system.ts: the subset of OpenAI tool_call
objects the runtime needs.  `type` is optional in the source type but is
always set by the assembler, so it is a plain `String` here. -/
structure ToolCallLike where
  id : String
  type : String
  function : ToolCallFunction
deriving DecidableEq, Repr

/-- One message of the conversation history
(`ChatCompletionMessageParam` as the runner actually uses it, together
with the extra fields of `StreamedAssistantMessage`).  The role is the
string tag of the source (`"system"`, `"user"`, `"assistant"`, `"tool"`). -/
structure ChatMessage where
  role : String
  content : Option String := none
  reasoning_content : Option String := none
  tool_calls : Option (List ToolCallLike) := none
  tool_call_id : Option String := none
deriving DecidableEq, Repr

/-! ## Stream deltas -/

/-- The `function` field of a streamed tool-call delta: both members may
be absent. -/
structure ToolCallDeltaFunction where
  name : Option String := none
  arguments : Option String := none
deriving DecidableEq, Repr

/-- One element of a `delta.tool_calls` array.  `index` is the slot
index; absent (non-number) indices default to `0` in the source. -/
structure ToolCallDelta where
  index : Option Nat := none
  id : Option String := none
  type : Option String := none
  function : Option ToolCallDeltaFunction := none
deriving DecidableEq, Repr

/-- The `delta` of one streamed chunk (`chunk.choices[0].delta ?? ` the
empty object).  The source coalesces three alternative field names for
reasoning text, so all three are present here. -/
structure StreamDelta where
  role : Option String := none
  reasoning_content : Option String := none
  reasoning : Option String := none
  thinking : Option String := none
  content : Option String := none
  tool_calls : Option (List ToolCallDelta) := none
deriving DecidableEq, Repr

/-- JavaScript nullish coalescing `a ?? b` on optional values: unlike
truthiness, an empty string on the left is kept. -/
def jsCoalesce {α : Type} (a b : Option α) : Option α :=
  match a with
  | some x => some x
  | none => b

/-- `toolCallMap.get(index)` on the slot map (an association list in
JavaScript `Map` insertion order). -/
def lookupSlot (k : Nat) : List (Nat × ToolCallLike) → Option ToolCallLike
  | [] => none
  | e :: rest => if e.1 = k then some e.2 else lookupSlot k rest

/-! ## Stream assembler (`consumeChatStream`, `accumulateToolCalls`) -/

/-- One step of `accumulateToolCalls` for a single `callDelta`.  The
slot map is the JavaScript `Map` in insertion order; a fresh slot is
appended, an existing slot is updated in place.  Truthiness guards of
the source (`if (callDelta.id)` etc.) mean empty strings do not
overwrite or extend, while the nullish defaults of the creation branch
(`callDelta.id ?? ...`) let empty strings through. -/
def accumulateToolCallDelta (map : List (Nat × ToolCallLike)) (callDelta : ToolCallDelta) :
    List (Nat × ToolCallLike) :=
  let index := callDelta.index.getD 0
  match lookupSlot index map with
  | none =>
    let call : ToolCallLike :=
      { id := callDelta.id.getD ("tool_call_" ++ toString index)
        type := callDelta.type.getD "function"
        function :=
          { name := (jsCoalesce (callDelta.function.bind ToolCallDeltaFunction.name) (some "")).getD ""
            arguments := (jsCoalesce (callDelta.function.bind ToolCallDeltaFunction.arguments) (some "")).getD "" } }
    map ++ [(index, call)]
  | some call =>
    let call := match callDelta.id with
      | some s => if s.isEmpty then call else { call with id := s }
      | none => call
    let call := match callDelta.type with
      | some s => if s.isEmpty then call else { call with type := s }
      | none => call
    let call := match callDelta.function.bind ToolCallDeltaFunction.name with
      | some s => if s.isEmpty then call
          else { call with function := { call.function with name := call.function.name ++ s } }
      | none => call
    let call := match callDelta.function.bind ToolCallDeltaFunction.arguments with
      | some s => if s.isEmpty then call
          else { call with function := { call.function with arguments := call.function.arguments ++ s } }
      | none => call
    map.map (fun e => if e.1 = index then (index, call) else e)

/-- `accumulateToolCalls(toolCallsDelta, map)` of chat_runner.ts:
fold the deltas of one chunk into the slot map. -/
def accumulateToolCalls (toolCallsDelta : List ToolCallDelta)
    (map : List (Nat × ToolCallLike)) : List (Nat × ToolCallLike) :=
  toolCallsDelta.foldl accumulateToolCallDelta map

/-- The `if (delta.role)` update of the stream loop (truthiness: the
empty string does not overwrite). -/
def applyRoleDelta (message : ChatMessage) (delta : StreamDelta) : ChatMessage :=
  match delta.role with
  | some r => if r.isEmpty then message else { message with role := r }
  | none => message

/-- The reasoning-fragment update: the source coalesces
`delta.reasoning_content ?? delta.reasoning ?? delta.thinking` and
appends it when it is a nonempty string. -/
def applyReasoningDelta (message : ChatMessage) (delta : StreamDelta) : ChatMessage :=
  match jsCoalesce delta.reasoning_content (jsCoalesce delta.reasoning delta.thinking) with
  | some s =>
    if s.length > 0 then
      { message with reasoning_content := some ((message.reasoning_content.getD "") ++ s) }
    else message
  | none => message

/-- The text-fragment update: append `delta.content` when it is a
nonempty string. -/
def applyContentDelta (message : ChatMessage) (delta : StreamDelta) : ChatMessage :=
  match delta.content with
  | some s =>
    if s.length > 0 then
      { message with content := some ((message.content.getD "") ++ s) }
    else message
  | none => message

/-- The tool-call update of one chunk: a present, nonempty
`delta.tool_calls` array is folded into the slot map. -/
def applyToolCallDeltas (map : List (Nat × ToolCallLike)) (delta : StreamDelta) :
    List (Nat × ToolCallLike) :=
  match delta.tool_calls with
  | some toolCalls => if toolCalls.length > 0 then accumulateToolCalls toolCalls map else map
  | none => map

/-- One iteration of the `for await (const chunk of stream)` loop of
`consumeChatStream`, updating the message accumulator and the slot map. -/
def consumeStep (st : ChatMessage × List (Nat × ToolCallLike)) (delta : StreamDelta) :
    ChatMessage × List (Nat × ToolCallLike) :=
  (applyContentDelta (applyReasoningDelta (applyRoleDelta st.1 delta) delta) delta,
   applyToolCallDeltas st.2 delta)

/-- The accumulator the stream loop starts from:
`role: "assistant", content: "", reasoning_content: ""`. -/
def initialAssistantMessage : ChatMessage :=
  { role := "assistant", content := some "", reasoning_content := some "" }

/-- The slot map accumulated over a whole stream. -/
def streamToolCallMap (stream : List StreamDelta) : List (Nat × ToolCallLike) :=
  (stream.foldl consumeStep (initialAssistantMessage, [])).2

/-- Ascending-slot order on slot-map entries, the order of the
source's comparator `(a, b) => a[0] - b[0]`. -/
def slotLe (a b : Nat × ToolCallLike) : Prop := a.1 ≤ b.1

/-- Strict ascending-slot order on slot-map entries. -/
def slotLt (a b : Nat × ToolCallLike) : Prop := a.1 < b.1

instance : DecidableRel slotLe := fun a b => Nat.decLe a.1 b.1

instance : DecidableRel slotLt := fun a b => Nat.decLt a.1 b.1

instance : IsTotal (Nat × ToolCallLike) slotLe := ⟨fun a b => Nat.le_total a.1 b.1⟩

instance : IsTrans (Nat × ToolCallLike) slotLe := ⟨fun _ _ _ h h' => Nat.le_trans h h'⟩

instance : IsAntisymm (Nat × ToolCallLike) slotLt :=
  ⟨fun _ _ h h' => absurd h (Nat.lt_asymm h')⟩

/-- `[...toolCallMap.entries()].sort((a, b) => a[0] - b[0])`: the slot
map entries in ascending slot order (slot keys are unique, so any
correct sort yields the same list; we use insertion sort). -/
def sortBySlot (map : List (Nat × ToolCallLike)) : List (Nat × ToolCallLike) :=
  List.insertionSort slotLe map

/-- The final falsy-to-null normalisation of the stream loop
(`if (!message.content) message.content = null`): a missing or empty
accumulated string becomes `null`. -/
def normalizeFalsyText (o : Option String) : Option String :=
  match o with
  | some s => if s.isEmpty then none else some s
  | none => none

/-- `consumeChatStream` of chat_runner.ts: drain a finite stream of
deltas into one finalized assistant message.  After draining, a
nonempty slot map becomes the slot-ascending `tool_calls` list, and the
two falsy-empty text accumulators are normalised to `null`. -/
def consumeChatStream (stream : List StreamDelta) : ChatMessage :=
  let st := stream.foldl consumeStep (initialAssistantMessage, [])
  let message := st.1
  let toolCallMap := st.2
  let message :=
    if toolCallMap.length > 0 then
      { message with tool_calls := some ((sortBySlot toolCallMap).map Prod.snd) }
    else message
  { message with
    content := normalizeFalsyText message.content
    reasoning_content := normalizeFalsyText message.reasoning_content }

/-! ## Dynamic context composer -/

/-- The synthetic system message carrying the freshly rendered
ephemeral status block (the result of `buildDynamicNotebookSystemText`,
passed in as a parameter). -/
def dynamicSystemMessage (dynamicText : String) : ChatMessage :=
  { role := "system", content := some dynamicText }

/-- `resolveDynamicSystemInsertIndex` of chat_runner.ts: scan the
history from the end for the most recent user message; if it is the
last message, insert before it, otherwise right after it; with no user
message, append at the end (`return history.length`). -/
def resolveDynamicSystemInsertIndex (history : List ChatMessage) : Nat :=
  match history.reverse.findIdx? (fun m => m.role == "user") with
  | some j =>
    let i := history.length - 1 - j
    if i = history.length - 1 then i else i + 1
  | none => history.length

/-- `buildRequestMessages` of chat_runner.ts: splice the synthetic
system message into a copy of the history at the resolved index, with
special cases for empty and single-message histories. -/
def buildRequestMessages (dynamicText : String) (history : List ChatMessage) :
    List ChatMessage :=
  let dynamicSystem := dynamicSystemMessage dynamicText
  match history with
  | [] => [dynamicSystem]
  | [only] => if only.role = "system" then [only, dynamicSystem] else [dynamicSystem, only]
  | _ =>
    let insertIdx := resolveDynamicSystemInsertIndex history
    history.take insertIdx ++ dynamicSystem :: history.drop insertIdx

/-! ## Tool registry and dispatcher (tool_system.ts) -/

/-- A registered tool (`Tool<Ctx>` of tool_system.ts).  The handler is
`handler(ctx, args)`: it may mutate the shared context (modelled by
returning the next context) and may either return a string or throw
(modelled by `Except.error` carrying the thrown message).  The JSON
parameter schema is irrelevant to dispatch and is omitted. -/
structure Tool (Ctx : Type) where
  name : String
  description : String
  handler : Ctx → JsValue → Except String String × Ctx

/-- The registry: the `Map<string, Tool<Ctx>>` of `ToolSystem`, as an
association list in insertion order. -/
structure ToolSystem (Ctx : Type) where
  tools : List (String × Tool Ctx)

/-- `ToolSystem.execute`: look the tool up by name; an unknown name or
a throwing handler becomes a textual error result. -/
def ToolSystem.execute {Ctx : Type} (ts : ToolSystem Ctx) (toolName : String)
    (ctx : Ctx) (args : JsValue) : String × Ctx :=
  match List.lookup toolName ts.tools with
  | none => ("Error: unknown tool '" ++ toolName ++ "'", ctx)
  | some tool =>
    match tool.handler ctx args with
    | (.ok out, ctx') => (out, ctx')
    | (.error msg, ctx') =>
      ("Error: tool '" ++ toolName ++ "' failed - " ++ msg, ctx')

/-- A tool-result message (`ToolResultMessageLike` of tool_system.ts). -/
structure ToolResultMessageLike where
  role : String
  tool_call_id : String
  content : String
deriving DecidableEq, Repr

/-- The body of the `for (const call of toolCalls)` loop of
`ToolSystem.handleToolCalls`, for one call: parse the argument text
(a parse failure yields an error result without running the handler);
a successfully parsed value is passed through when the JavaScript tests
`typeof data === "object" && data !== null` hold, and replaced by the
empty object otherwise. -/
def dispatchOneCall {Ctx : Type} (ts : ToolSystem Ctx)
    (jsonParse : String → Except String JsValue) (call : ToolCallLike) (ctx : Ctx) :
    ToolResultMessageLike × Ctx :=
  let name := call.function.name
  let argText := call.function.arguments
  match jsonParse argText with
  | .error e =>
    ({ role := "tool", tool_call_id := call.id
       content := "Error: invalid JSON arguments for tool '" ++ name ++ "': " ++ e }, ctx)
  | .ok data =>
    let args := if jsTypeof data == "object" && !(jsIsNull data) then data else JsValue.objV []
    let r := ts.execute name ctx args
    ({ role := "tool", tool_call_id := call.id, content := r.1 }, r.2)

/-- `ToolSystem.handleToolCalls`: run a batch of tool calls strictly
sequentially, threading the shared context, and return one tool-result
message per call in request order. -/
def ToolSystem.handleToolCalls {Ctx : Type} (ts : ToolSystem Ctx)
    (jsonParse : String → Except String JsValue) :
    List ToolCallLike → Ctx → List ToolResultMessageLike × Ctx
  | [], ctx => ([], ctx)
  | call :: rest, ctx =>
    let r := dispatchOneCall ts jsonParse call ctx
    let tail := ToolSystem.handleToolCalls ts jsonParse rest r.2
    (r.1 :: tail.1, tail.2)

/-! ## Tool loop controller (`runToolLoop`) -/

/-- `appendToolResults` pushes each dispatcher result onto the history
as a `role: "tool"` message. -/
def toToolMessage (r : ToolResultMessageLike) : ChatMessage :=
  { role := "tool", tool_call_id := some r.tool_call_id, content := some r.content }

/-- `getFinalText` of chat_runner.ts: `message.content ?? null`. -/
def getFinalText (message : ChatMessage) : Option String :=
  message.content

/-- Result of a tool-loop run: the returned final text (`none` is the
"no answer" sentinel returned after the round budget is exhausted), the
conversation history after all appends, the shared context, and the
number of requests issued to the completion service. -/
structure LoopResult (Ctx : Type) where
  finalText : Option String
  history : List ChatMessage
  ctx : Ctx
  requests : Nat

/-- The `for (let round = 0; round < maxToolRounds; round++)` loop of
`runToolLoop`, structurally recursing on the remaining round budget.
Each round issues one request (consuming `streams round`); a message
with tool calls has its visible content replaced by its reasoning text,
is appended, and is followed by the dispatched tool results; a message
without tool calls is appended as is and its content is returned. -/
def runToolLoopAux {Ctx : Type} (ts : ToolSystem Ctx)
    (jsonParse : String → Except String JsValue)
    (streams : Nat → List StreamDelta) :
    Nat → Nat → List ChatMessage → Ctx → Nat → LoopResult Ctx
  | 0, _round, history, ctx, requests => ⟨none, history, ctx, requests⟩
  | n + 1, round, history, ctx, requests =>
    let msg := consumeChatStream (streams round)
    let requests := requests + 1
    let toolCalls := msg.tool_calls.getD []
    let msg := if toolCalls.length > 0 then { msg with content := msg.reasoning_content } else msg
    let history := history ++ [msg]
    if toolCalls.length > 0 then
      let dispatched := ts.handleToolCalls jsonParse toolCalls ctx
      runToolLoopAux ts jsonParse streams n (round + 1)
        (history ++ dispatched.1.map toToolMessage) dispatched.2 requests
    else
      ⟨getFinalText msg, history, ctx, requests⟩

/-- `runToolLoop` of chat_runner.ts, starting at round 0 with the full
round budget; returns `none` (the "no answer" sentinel) when
`maxToolRounds` rounds all carried tool calls. -/
def runToolLoop {Ctx : Type} (ts : ToolSystem Ctx)
    (jsonParse : String → Except String JsValue)
    (streams : Nat → List StreamDelta) (maxToolRounds : Nat)
    (history : List ChatMessage) (ctx : Ctx) : LoopResult Ctx :=
  runToolLoopAux ts jsonParse streams maxToolRounds 0 history ctx 0

/-! ## Helper lemmas: stream assembler -/

theorem foldlPreserves {α β : Type _} {P : β → Prop} {f : β → α → β}
    (hf : ∀ b a, P b → P (f b a)) :
    ∀ (l : List α) (b : β), P b → P (l.foldl f b) := by
  intro l
  induction l with
  | nil => intro b hb; exact hb
  | cons x xs ih => intro b hb; exact ih _ (hf b x hb)

theorem applyRoleDelta_content (m : ChatMessage) (d : StreamDelta) :
    (applyRoleDelta m d).content = m.content := by
  unfold applyRoleDelta; cases d.role <;> simp
  split <;> rfl

theorem applyRoleDelta_reasoning (m : ChatMessage) (d : StreamDelta) :
    (applyRoleDelta m d).reasoning_content = m.reasoning_content := by
  unfold applyRoleDelta; cases d.role <;> simp
  split <;> rfl

theorem applyRoleDelta_tool_calls (m : ChatMessage) (d : StreamDelta) :
    (applyRoleDelta m d).tool_calls = m.tool_calls := by
  unfold applyRoleDelta; cases d.role <;> simp
  split <;> rfl

theorem applyReasoningDelta_content (m : ChatMessage) (d : StreamDelta) :
    (applyReasoningDelta m d).content = m.content := by
  unfold applyReasoningDelta
  cases jsCoalesce d.reasoning_content (jsCoalesce d.reasoning d.thinking) <;> simp
  split <;> rfl

theorem applyReasoningDelta_tool_calls (m : ChatMessage) (d : StreamDelta) :
    (applyReasoningDelta m d).tool_calls = m.tool_calls := by
  unfold applyReasoningDelta
  cases jsCoalesce d.reasoning_content (jsCoalesce d.reasoning d.thinking) <;> simp
  split <;> rfl

theorem applyReasoningDelta_role (m : ChatMessage) (d : StreamDelta) :
    (applyReasoningDelta m d).role = m.role := by
  unfold applyReasoningDelta
  cases jsCoalesce d.reasoning_content (jsCoalesce d.reasoning d.thinking) <;> simp
  split <;> rfl

theorem applyContentDelta_role (m : ChatMessage) (d : StreamDelta) :
    (applyContentDelta m d).role = m.role := by
  unfold applyContentDelta; cases d.content <;> simp
  split <;> rfl

theorem applyContentDelta_reasoning (m : ChatMessage) (d : StreamDelta) :
    (applyContentDelta m d).reasoning_content = m.reasoning_content := by
  unfold applyContentDelta; cases d.content <;> simp
  split <;> rfl

theorem applyContentDelta_tool_calls (m : ChatMessage) (d : StreamDelta) :
    (applyContentDelta m d).tool_calls = m.tool_calls := by
  unfold applyContentDelta; cases d.content <;> simp
  split <;> rfl

theorem consumeStep_tool_calls (st : ChatMessage × List (Nat × ToolCallLike))
    (d : StreamDelta) : ((consumeStep st d).1).tool_calls = st.1.tool_calls := by
  unfold consumeStep
  rw [applyContentDelta_tool_calls, applyReasoningDelta_tool_calls, applyRoleDelta_tool_calls]

theorem foldl_consumeStep_tool_calls (s : List StreamDelta)
    (st : ChatMessage × List (Nat × ToolCallLike)) :
    ((s.foldl consumeStep st).1).tool_calls = st.1.tool_calls := by
  induction s generalizing st with
  | nil => rfl
  | cons d rest ih => rw [List.foldl_cons, ih, consumeStep_tool_calls]

theorem lookupSlot_none_iff (k : Nat) (m : List (Nat × ToolCallLike)) :
    lookupSlot k m = none ↔ k ∉ m.map Prod.fst := by
  induction m with
  | nil => simp [lookupSlot]
  | cons e rest ih =>
    by_cases h : e.1 = k
    · simp [lookupSlot, h]
    · simp only [lookupSlot, if_neg h, ih, List.map_cons, List.mem_cons]
      constructor
      · intro hk hor
        rcases hor with h1 | h2
        · exact h h1.symm
        · exact hk h2
      · intro hk hmem
        exact hk (Or.inr hmem)

theorem keys_mapUpdate (m : List (Nat × ToolCallLike)) (k : Nat) (c : ToolCallLike) :
    ((m.map (fun e => if e.1 = k then (k, c) else e)).map Prod.fst) = m.map Prod.fst := by
  induction m with
  | nil => rfl
  | cons e rest ih =>
    by_cases h : e.1 = k
    · simp [h, ih]
    · simp [h, ih]

theorem accumulateToolCallDelta_keys_nodup (m : List (Nat × ToolCallLike))
    (d : ToolCallDelta) (h : (m.map Prod.fst).Nodup) :
    (((accumulateToolCallDelta m d).map Prod.fst)).Nodup := by
  unfold accumulateToolCallDelta
  dsimp only
  cases hl : lookupSlot (d.index.getD 0) m with
  | none =>
    have hk : d.index.getD 0 ∉ m.map Prod.fst := (lookupSlot_none_iff _ _).mp hl
    dsimp only
    simp only [List.map_append, List.map_cons, List.map_nil]
    rw [List.nodup_append]
    refine ⟨h, List.nodup_singleton _, ?_⟩
    intro a ha hb
    simp only [List.mem_singleton] at hb
    exact hk (hb ▸ ha)
  | some call =>
    dsimp only
    rw [keys_mapUpdate]
    exact h

theorem accumulateToolCalls_keys_nodup (ds : List ToolCallDelta)
    (m : List (Nat × ToolCallLike)) (h : (m.map Prod.fst).Nodup) :
    (((accumulateToolCalls ds m).map Prod.fst)).Nodup :=
  foldlPreserves (fun b a hb => accumulateToolCallDelta_keys_nodup b a hb) ds m h

theorem applyToolCallDeltas_keys_nodup (m : List (Nat × ToolCallLike)) (d : StreamDelta)
    (h : (m.map Prod.fst).Nodup) : (((applyToolCallDeltas m d).map Prod.fst)).Nodup := by
  unfold applyToolCallDeltas
  cases d.tool_calls with
  | none => exact h
  | some tcs =>
    by_cases hl : tcs.length > 0
    · simpa [hl] using accumulateToolCalls_keys_nodup tcs m h
    · simpa [hl] using h

theorem streamToolCallMap_keys_nodup (s : List StreamDelta) :
    ((streamToolCallMap s).map Prod.fst).Nodup := by
  have := foldlPreserves
    (P := fun st : ChatMessage × List (Nat × ToolCallLike) => ((st.2.map Prod.fst)).Nodup)
    (f := consumeStep)
    (fun st d hb => applyToolCallDeltas_keys_nodup st.2 d hb)
    s (initialAssistantMessage, []) (by simp)
  exact this

/-! ## Helper lemmas: sorting the slot map -/

theorem sortBySlot_perm (m : List (Nat × ToolCallLike)) : List.Perm (sortBySlot m) m :=
  List.perm_insertionSort slotLe m

theorem sortBySlot_sorted (m : List (Nat × ToolCallLike)) :
    List.Sorted slotLe (sortBySlot m) :=
  List.sorted_insertionSort slotLe m

theorem sorted_slotLt_of_nodup {l : List (Nat × ToolCallLike)}
    (hs : List.Sorted slotLe l) (hn : (l.map Prod.fst).Nodup) :
    List.Sorted slotLt l := by
  have hne : l.Pairwise (fun a b => a.1 ≠ b.1) := by
    rw [List.Nodup, List.pairwise_map] at hn
    exact hn
  have hle : l.Pairwise slotLe := hs
  exact (hle.and hne).imp (fun h => Nat.lt_of_le_of_ne h.1 h.2)

theorem sortBySlot_eq_of_perm {m1 m2 : List (Nat × ToolCallLike)} (h : List.Perm m1 m2)
    (hn : (m1.map Prod.fst).Nodup) : sortBySlot m1 = sortBySlot m2 := by
  have hn1 : ((sortBySlot m1).map Prod.fst).Nodup :=
    (((sortBySlot_perm m1).map Prod.fst).nodup_iff).mpr hn
  have hn2 : ((sortBySlot m2).map Prod.fst).Nodup := by
    refine (((sortBySlot_perm m2).map Prod.fst).nodup_iff).mpr ?_
    exact ((h.map Prod.fst).nodup_iff).mp hn
  exact List.eq_of_perm_of_sorted
    ((sortBySlot_perm m1).trans (h.trans (sortBySlot_perm m2).symm))
    (sorted_slotLt_of_nodup (sortBySlot_sorted m1) hn1)
    (sorted_slotLt_of_nodup (sortBySlot_sorted m2) hn2)

/-! ## Helper lemmas: finalized message characterization -/

theorem normalizeFalsyText_ne_some_empty (o : Option String) :
    normalizeFalsyText o ≠ some "" := by
  unfold normalizeFalsyText
  cases o with
  | none => simp
  | some s =>
    by_cases h : s.isEmpty
    · simp [h]
    · simp only [if_neg h]
      intro he
      apply h
      rw [Option.some.injEq] at he
      rw [he]
      rfl

theorem consumeChatStream_content (s : List StreamDelta) :
    (consumeChatStream s).content =
      normalizeFalsyText ((s.foldl consumeStep (initialAssistantMessage, [])).1).content := by
  unfold consumeChatStream
  dsimp only
  split <;> rfl

theorem consumeChatStream_reasoning (s : List StreamDelta) :
    (consumeChatStream s).reasoning_content =
      normalizeFalsyText
        ((s.foldl consumeStep (initialAssistantMessage, [])).1).reasoning_content := by
  unfold consumeChatStream
  dsimp only
  split <;> rfl

theorem consumeChatStream_tool_calls_eq (s : List StreamDelta) :
    (consumeChatStream s).tool_calls =
      if streamToolCallMap s = [] then none
      else some ((sortBySlot (streamToolCallMap s)).map Prod.snd) := by
  unfold consumeChatStream streamToolCallMap
  dsimp only
  by_cases h : (s.foldl consumeStep (initialAssistantMessage, [])).2 = []
  · rw [if_pos h]
    have h0 : ¬ ((s.foldl consumeStep (initialAssistantMessage, [])).2.length > 0) := by
      rw [h]; simp
    rw [if_neg h0]
    simp [foldl_consumeStep_tool_calls, initialAssistantMessage]
  · rw [if_neg h]
    have h0 : (s.foldl consumeStep (initialAssistantMessage, [])).2.length > 0 :=
      List.length_pos.mpr h
    rw [if_pos h0]

theorem consumeChatStream_role (s : List StreamDelta)
    (h : ∀ d ∈ s, d.role = none) : (consumeChatStream s).role = "assistant" := by
  have key : ∀ (st : ChatMessage × List (Nat × ToolCallLike)),
      ((s.foldl consumeStep st).1).role = st.1.role := by
    induction s with
    | nil => intro st; rfl
    | cons d rest ih =>
      intro st
      have hd : d.role = none := h d (List.mem_cons_self d rest)
      rw [List.foldl_cons]
      have : ((consumeStep st d).1).role = st.1.role := by
        unfold consumeStep
        rw [applyContentDelta_role, applyReasoningDelta_role]
        unfold applyRoleDelta
        rw [hd]
      rw [ih (fun d hd => h d (List.mem_cons_of_mem _ hd)) (consumeStep st d), this]
  unfold consumeChatStream
  dsimp only
  split <;> simpa using key (initialAssistantMessage, [])

theorem applyContentDelta_content_triv (m : ChatMessage) (d : StreamDelta)
    (hd : d.content = none ∨ d.content = some "") :
    (applyContentDelta m d).content = m.content := by
  unfold applyContentDelta
  rcases hd with h | h <;> rw [h] <;> simp

theorem applyReasoningDelta_reasoning_triv (m : ChatMessage) (d : StreamDelta)
    (hd : jsCoalesce d.reasoning_content (jsCoalesce d.reasoning d.thinking) = none ∨
      jsCoalesce d.reasoning_content (jsCoalesce d.reasoning d.thinking) = some "") :
    (applyReasoningDelta m d).reasoning_content = m.reasoning_content := by
  unfold applyReasoningDelta
  rcases hd with h | h <;> rw [h] <;> simp

theorem foldl_consumeStep_content_triv (s : List StreamDelta)
    (h : ∀ d ∈ s, d.content = none ∨ d.content = some "") :
    ∀ st : ChatMessage × List (Nat × ToolCallLike),
      ((s.foldl consumeStep st).1).content = st.1.content := by
  induction s with
  | nil => intro st; rfl
  | cons d rest ih =>
    intro st
    rw [List.foldl_cons, ih (fun x hx => h x (List.mem_cons_of_mem _ hx))]
    unfold consumeStep
    rw [applyContentDelta_content_triv _ _ (h d (List.mem_cons_self d rest)),
      applyReasoningDelta_content, applyRoleDelta_content]

theorem foldl_consumeStep_reasoning_triv (s : List StreamDelta)
    (h : ∀ d ∈ s, jsCoalesce d.reasoning_content (jsCoalesce d.reasoning d.thinking) = none ∨
      jsCoalesce d.reasoning_content (jsCoalesce d.reasoning d.thinking) = some "") :
    ∀ st : ChatMessage × List (Nat × ToolCallLike),
      ((s.foldl consumeStep st).1).reasoning_content = st.1.reasoning_content := by
  induction s with
  | nil => intro st; rfl
  | cons d rest ih =>
    intro st
    rw [List.foldl_cons, ih (fun x hx => h x (List.mem_cons_of_mem _ hx))]
    unfold consumeStep
    rw [applyContentDelta_reasoning,
      applyReasoningDelta_reasoning_triv _ _ (h d (List.mem_cons_self d rest)),
      applyRoleDelta_reasoning]

/-! ## Concrete fixtures used by witnesses and counterexamples -/

/-- First fragment of slot 1 (arrives first in `fixtureStreamBA`). -/
def slotOneDelta : ToolCallDelta :=
  { index := some 1, id := some "call_b",
    function := some { name := some "beta", arguments := some "argB" } }

/-- First fragment of slot 0. -/
def slotZeroDelta : ToolCallDelta :=
  { index := some 0, id := some "call_a",
    function := some { name := some "alpha", arguments := some "argA" } }

/-- Stream in which slot 1's first fragment arrives before slot 0's. -/
def fixtureStreamBA : List StreamDelta :=
  [{ tool_calls := some [slotOneDelta] }, { tool_calls := some [slotZeroDelta] }]

/-- Stream with the same fragments in slot-ascending arrival order. -/
def fixtureStreamAB : List StreamDelta :=
  [{ tool_calls := some [slotZeroDelta] }, { tool_calls := some [slotOneDelta] }]

/-- A stream chunk carrying exactly one empty-string text fragment. -/
def emptyTextDelta : StreamDelta := { content := some "" }

/-- A stream chunk carrying exactly one empty-string reasoning fragment. -/
def emptyReasoningDelta : StreamDelta := { reasoning_content := some "" }

/-- A stream chunk carrying the text fragment "hi". -/
def hiTextDelta : StreamDelta := { content := some "hi" }

/-! ## Claim C1 -/

/-- C1: for every finite stream of update events, the finalized
assistant turn's invocation list is the slot map's entries sorted
ascending by slot index, regardless of the arrival order of the first
fragments of different slots: two streams that accumulate the same
slot-map entries (a permutation; slot keys are unique by construction)
finalize the same `tool_calls` list, which is the slot-ascending
ordering of exactly the map's entries, and an empty map finalizes no
`tool_calls` at all. -/
theorem finalized_tool_calls_slot_sorted (s1 s2 : List StreamDelta)
    (h : List.Perm (streamToolCallMap s1) (streamToolCallMap s2)) :
    (consumeChatStream s1).tool_calls = (consumeChatStream s2).tool_calls
    ∧ (streamToolCallMap s1 = [] → (consumeChatStream s1).tool_calls = none)
    ∧ (streamToolCallMap s1 ≠ [] →
        (consumeChatStream s1).tool_calls =
          some ((sortBySlot (streamToolCallMap s1)).map Prod.snd))
    ∧ List.Sorted slotLe (sortBySlot (streamToolCallMap s1))
    ∧ List.Perm (sortBySlot (streamToolCallMap s1)) (streamToolCallMap s1) := by
  refine ⟨?_, ?_, ?_, sortBySlot_sorted _, sortBySlot_perm _⟩
  · rw [consumeChatStream_tool_calls_eq, consumeChatStream_tool_calls_eq]
    by_cases h1 : streamToolCallMap s1 = []
    · have h2 : streamToolCallMap s2 = [] := ((h1 ▸ h).symm).eq_nil
      rw [if_pos h1, if_pos h2]
    · have h2 : streamToolCallMap s2 ≠ [] := by
        intro he
        exact h1 (he ▸ h).eq_nil
      rw [if_neg h1, if_neg h2,
        sortBySlot_eq_of_perm h (streamToolCallMap_keys_nodup s1)]
  · intro h1
    rw [consumeChatStream_tool_calls_eq, if_pos h1]
  · intro h1
    rw [consumeChatStream_tool_calls_eq, if_neg h1]

/-- Witness for C1: slot 1's first fragment arriving before slot 0's
still finalizes the invocation list as `[slot 0, slot 1]`. -/
theorem finalized_tool_calls_slot_sorted_witness :
    List.Perm (streamToolCallMap fixtureStreamBA) (streamToolCallMap fixtureStreamAB)
    ∧ (consumeChatStream fixtureStreamBA).tool_calls =
        (consumeChatStream fixtureStreamAB).tool_calls
    ∧ (consumeChatStream fixtureStreamBA).tool_calls = some
        [{ id := "call_a", type := "function",
           function := { name := "alpha", arguments := "argA" } },
         { id := "call_b", type := "function",
           function := { name := "beta", arguments := "argB" } }] :=
  ⟨by decide,
   (finalized_tool_calls_slot_sorted fixtureStreamBA fixtureStreamAB (by decide)).1,
   by decide⟩

/-- The concatenation of a stream's visible-text fragments (absent
fragments contribute nothing; empty fragments are skipped by the
`content.length` guard but contribute nothing to a concatenation
anyway). -/
def contentFragmentsText : List StreamDelta → String
  | [] => ""
  | d :: rest =>
    (match d.content with | some t => t | none => "") ++ contentFragmentsText rest

/-- The concatenation of a stream's reasoning-text fragments, after the
source's three-way field coalescing. -/
def reasoningFragmentsText : List StreamDelta → String
  | [] => ""
  | d :: rest =>
    (match jsCoalesce d.reasoning_content (jsCoalesce d.reasoning d.thinking) with
      | some t => t | none => "") ++ reasoningFragmentsText rest

theorem string_length_zero_eq_empty (s : String) (h : s.length = 0) : s = "" := by
  cases s with
  | mk data =>
    have hd : data = [] := List.length_eq_zero.mp h
    rw [hd]

theorem foldl_consumeStep_content_accum :
    ∀ (s : List StreamDelta) (st : ChatMessage × List (Nat × ToolCallLike)) (acc : String),
      st.1.content = some acc →
      ((s.foldl consumeStep st).1).content = some (acc ++ contentFragmentsText s) := by
  intro s
  induction s with
  | nil =>
    intro st acc h
    rw [List.foldl_nil, h, contentFragmentsText, String.append_empty]
  | cons d rest ih =>
    intro st acc h
    rw [List.foldl_cons]
    cases hd : d.content with
    | none =>
      have h1 : ((consumeStep st d).1).content = some acc := by
        unfold consumeStep
        rw [applyContentDelta_content_triv _ _ (Or.inl hd), applyReasoningDelta_content,
          applyRoleDelta_content]
        exact h
      rw [ih _ _ h1]
      have he : contentFragmentsText (d :: rest) = contentFragmentsText rest := by
        rw [contentFragmentsText, hd, String.empty_append]
      rw [he]
    | some t =>
      by_cases ht : t.length > 0
      · have h1 : ((consumeStep st d).1).content = some (acc ++ t) := by
          unfold consumeStep applyContentDelta
          rw [hd]
          dsimp only
          rw [if_pos ht, applyReasoningDelta_content, applyRoleDelta_content, h]
          rfl
        rw [ih _ _ h1]
        have he : contentFragmentsText (d :: rest) = t ++ contentFragmentsText rest := by
          rw [contentFragmentsText, hd]
        rw [he, ← String.append_assoc]
      · have ht0 : t = "" :=
          string_length_zero_eq_empty t (Nat.eq_zero_of_not_pos ht)
        subst ht0
        have h1 : ((consumeStep st d).1).content = some acc := by
          unfold consumeStep
          rw [applyContentDelta_content_triv _ _ (Or.inr hd), applyReasoningDelta_content,
            applyRoleDelta_content]
          exact h
        rw [ih _ _ h1]
        have he : contentFragmentsText (d :: rest) = contentFragmentsText rest := by
          rw [contentFragmentsText, hd, String.empty_append]
        rw [he]

theorem foldl_consumeStep_reasoning_accum :
    ∀ (s : List StreamDelta) (st : ChatMessage × List (Nat × ToolCallLike)) (acc : String),
      st.1.reasoning_content = some acc →
      ((s.foldl consumeStep st).1).reasoning_content =
        some (acc ++ reasoningFragmentsText s) := by
  intro s
  induction s with
  | nil =>
    intro st acc h
    rw [List.foldl_nil, h, reasoningFragmentsText, String.append_empty]
  | cons d rest ih =>
    intro st acc h
    rw [List.foldl_cons]
    cases hd : jsCoalesce d.reasoning_content (jsCoalesce d.reasoning d.thinking) with
    | none =>
      have h1 : ((consumeStep st d).1).reasoning_content = some acc := by
        unfold consumeStep
        rw [applyContentDelta_reasoning,
          applyReasoningDelta_reasoning_triv _ _ (Or.inl hd), applyRoleDelta_reasoning]
        exact h
      rw [ih _ _ h1]
      have he : reasoningFragmentsText (d :: rest) = reasoningFragmentsText rest := by
        rw [reasoningFragmentsText, hd, String.empty_append]
      rw [he]
    | some t =>
      by_cases ht : t.length > 0
      · have h1 : ((consumeStep st d).1).reasoning_content = some (acc ++ t) := by
          unfold consumeStep applyReasoningDelta
          rw [applyContentDelta_reasoning]
          rw [hd]
          dsimp only
          rw [if_pos ht, applyRoleDelta_reasoning, h]
          rfl
        rw [ih _ _ h1]
        have he : reasoningFragmentsText (d :: rest) =
            t ++ reasoningFragmentsText rest := by
          rw [reasoningFragmentsText, hd]
        rw [he, ← String.append_assoc]
      · have ht0 : t = "" :=
          string_length_zero_eq_empty t (Nat.eq_zero_of_not_pos ht)
        subst ht0
        have h1 : ((consumeStep st d).1).reasoning_content = some acc := by
          unfold consumeStep
          rw [applyContentDelta_reasoning,
            applyReasoningDelta_reasoning_triv _ _ (Or.inr hd), applyRoleDelta_reasoning]
          exact h
        rw [ih _ _ h1]
        have he : reasoningFragmentsText (d :: rest) = reasoningFragmentsText rest := by
          rw [reasoningFragmentsText, hd, String.empty_append]
        rw [he]

theorem consumeChatStream_content_accum (s : List StreamDelta) :
    (consumeChatStream s).content = normalizeFalsyText (some (contentFragmentsText s)) := by
  rw [consumeChatStream_content,
    foldl_consumeStep_content_accum s (initialAssistantMessage, []) "" rfl,
    String.empty_append]

theorem consumeChatStream_reasoning_accum (s : List StreamDelta) :
    (consumeChatStream s).reasoning_content =
      normalizeFalsyText (some (reasoningFragmentsText s)) := by
  rw [consumeChatStream_reasoning,
    foldl_consumeStep_reasoning_accum s (initialAssistantMessage, []) "" rfl,
    String.empty_append]

theorem normalizeFalsyText_some_eq_none_iff (t : String) :
    normalizeFalsyText (some t) = none ↔ t = "" := by
  unfold normalizeFalsyText
  dsimp only
  by_cases he : t.isEmpty
  · rw [if_pos he]
    simp [(String.isEmpty_iff t).mp he]
  · rw [if_neg he]
    constructor
    · intro h
      cases h
    · intro h
      exact absurd ((String.isEmpty_iff t).mpr h) he

theorem normalizeFalsyText_some_nonempty (t : String) (h : t ≠ "") :
    normalizeFalsyText (some t) = some t := by
  unfold normalizeFalsyText
  dsimp only
  rw [if_neg (fun he => h ((String.isEmpty_iff t).mp he))]

/-! ## Claim C3 -/

/-- Counterexample to C3 as stated: a stream carrying exactly one
empty-string text fragment finalizes `content = null`, not the empty
string (the source's `if (!message.content)` normalisation treats the
empty accumulation as falsy). -/
theorem empty_fragment_content_counterexample :
    (consumeChatStream [emptyTextDelta]).content = none
    ∧ (consumeChatStream [emptyTextDelta]).content ≠ some ""
    ∧ (consumeChatStream [emptyReasoningDelta]).reasoning_content = none
    ∧ (consumeChatStream [emptyReasoningDelta]).reasoning_content ≠ some "" := by
  refine ⟨?_, ?_, ?_, ?_⟩
  · decide
  · decide
  · decide
  · decide

/-- C3 (amended): the assembler does not distinguish null from the
empty string: finalized content is null exactly when the concatenation
of the stream's text fragments is empty, and otherwise equals that
concatenation; in particular a turn with no text fragments finalizes
`content = null`, a turn whose only text fragment is the empty string
also finalizes `content = null`, and finalized content is never the
empty string; the same holds for reasoning text. -/
theorem content_null_iff_empty_accumulation (s : List StreamDelta) :
    (consumeChatStream s).content ≠ some ""
    ∧ (consumeChatStream s).reasoning_content ≠ some ""
    ∧ ((consumeChatStream s).content = none ↔ contentFragmentsText s = "")
    ∧ (contentFragmentsText s ≠ "" →
        (consumeChatStream s).content = some (contentFragmentsText s))
    ∧ ((consumeChatStream s).reasoning_content = none ↔ reasoningFragmentsText s = "")
    ∧ (reasoningFragmentsText s ≠ "" →
        (consumeChatStream s).reasoning_content = some (reasoningFragmentsText s))
    ∧ ((∀ d ∈ s, d.content = none ∨ d.content = some "") →
        (consumeChatStream s).content = none)
    ∧ ((∀ d ∈ s,
          jsCoalesce d.reasoning_content (jsCoalesce d.reasoning d.thinking) = none ∨
          jsCoalesce d.reasoning_content (jsCoalesce d.reasoning d.thinking) = some "") →
        (consumeChatStream s).reasoning_content = none) := by
  refine ⟨?_, ?_, ?_, ?_, ?_, ?_, ?_, ?_⟩
  · rw [consumeChatStream_content]
    exact normalizeFalsyText_ne_some_empty _
  · rw [consumeChatStream_reasoning]
    exact normalizeFalsyText_ne_some_empty _
  · rw [consumeChatStream_content_accum]
    exact normalizeFalsyText_some_eq_none_iff _
  · intro h
    rw [consumeChatStream_content_accum]
    exact normalizeFalsyText_some_nonempty _ h
  · rw [consumeChatStream_reasoning_accum]
    exact normalizeFalsyText_some_eq_none_iff _
  · intro h
    rw [consumeChatStream_reasoning_accum]
    exact normalizeFalsyText_some_nonempty _ h
  · intro h
    rw [consumeChatStream_content, foldl_consumeStep_content_triv s h]
    rfl
  · intro h
    rw [consumeChatStream_reasoning, foldl_consumeStep_reasoning_triv s h]
    rfl

/-- Witness for C3 (amended): the empty stream and a stream of two
empty text fragments finalize `content = null`, while a stream carrying
the fragment "hi" finalizes `content = some "hi"`. -/
theorem content_null_iff_empty_accumulation_witness :
    (consumeChatStream [emptyTextDelta, emptyTextDelta]).content = none
    ∧ (consumeChatStream ([] : List StreamDelta)).content = none
    ∧ (consumeChatStream [hiTextDelta]).content =
        some (contentFragmentsText [hiTextDelta]) :=
  ⟨(content_null_iff_empty_accumulation
      [emptyTextDelta, emptyTextDelta]).2.2.2.2.2.2.1 (by decide),
   (content_null_iff_empty_accumulation []).2.2.2.2.2.2.1 (by simp),
   (content_null_iff_empty_accumulation [hiTextDelta]).2.2.2.1 (by decide)⟩

/-! ## Composer fixtures -/

/-- The seeded leading instruction turn. -/
def systemSeedMessage : ChatMessage := { role := "system", content := some "seed" }

/-- A user turn carrying the text "hi". -/
def userHiMessage : ChatMessage := { role := "user", content := some "hi" }

/-- A user turn carrying the text "q". -/
def userQMessage : ChatMessage := { role := "user", content := some "q" }

/-- The invocation x of the composer scenario. -/
def callX : ToolCallLike :=
  { id := "x", type := "function", function := { name := "f", arguments := "a" } }

/-- An assistant turn carrying the single invocation x. -/
def assistantCallsX : ChatMessage :=
  { role := "assistant", content := none, tool_calls := some [callX] }

/-- The tool turn answering invocation x. -/
def toolXMessage : ChatMessage :=
  { role := "tool", content := some "result", tool_call_id := some "x" }

/-- An assistant turn with plain text and no invocations. -/
def assistantPlainMessage : ChatMessage := { role := "assistant", content := some "a" }

/-! ## Claim C4 -/

/-- C4: composer insertion on the two concrete histories: with the most
recent user turn last, the synthetic block goes immediately before it;
with the user turn followed by an assistant/tool run, the synthetic
block goes immediately after the user turn, never splitting the
assistant turn from its tool turn. -/
theorem composer_insertion_concrete_cases (d : String) :
    buildRequestMessages d [systemSeedMessage, userHiMessage] =
      [systemSeedMessage, dynamicSystemMessage d, userHiMessage]
    ∧ buildRequestMessages d
        [systemSeedMessage, userQMessage, assistantCallsX, toolXMessage] =
      [systemSeedMessage, userQMessage, dynamicSystemMessage d,
       assistantCallsX, toolXMessage] :=
  ⟨rfl, rfl⟩

/-! ## Claim C8 -/

/-- With no user turn in the history, the scan of
`resolveDynamicSystemInsertIndex` falls through and returns the history
length (the source comment: degrade to appending at the end). -/
theorem resolveDynamicSystemInsertIndex_no_user (history : List ChatMessage)
    (h : ∀ m ∈ history, m.role ≠ "user") :
    resolveDynamicSystemInsertIndex history = history.length := by
  unfold resolveDynamicSystemInsertIndex
  have hnone : history.reverse.findIdx? (fun m => m.role == "user") = none := by
    rw [List.findIdx?_eq_none_iff]
    intro x hx
    simp only [beq_eq_false_iff_ne, ne_eq]
    exact h x (List.mem_reverse.mp hx)
  rw [hnone]

/-- Counterexample to C8 as stated: for the two-turn history
`[instruction, assistant]` with no user turn, the synthetic block is
appended at the end, not inserted as the second element after the
leading instruction turn. -/
theorem no_user_insertion_counterexample :
    buildRequestMessages "dyn" [systemSeedMessage, assistantPlainMessage] =
      [systemSeedMessage, assistantPlainMessage, dynamicSystemMessage "dyn"]
    ∧ buildRequestMessages "dyn" [systemSeedMessage, assistantPlainMessage] ≠
      [systemSeedMessage, dynamicSystemMessage "dyn", assistantPlainMessage] := by
  constructor
  · decide
  · decide

/-- C8 (amended): for every history containing no user turn, the
composed sequence is the synthetic block alone for an empty history;
the instruction turn followed by the synthetic block for a single
instruction turn; the synthetic block before the turn for a single
non-instruction turn; and the history with the synthetic block appended
at the end for two or more turns. -/
theorem no_user_insertion_appends_at_end (d : String) (history : List ChatMessage)
    (hnouser : ∀ m ∈ history, m.role ≠ "user") :
    (history = [] → buildRequestMessages d history = [dynamicSystemMessage d])
    ∧ (∀ only, history = [only] → only.role = "system" →
        buildRequestMessages d history = [only, dynamicSystemMessage d])
    ∧ (∀ only, history = [only] → only.role ≠ "system" →
        buildRequestMessages d history = [dynamicSystemMessage d, only])
    ∧ (2 ≤ history.length →
        buildRequestMessages d history = history ++ [dynamicSystemMessage d]) := by
  refine ⟨?_, ?_, ?_, ?_⟩
  · intro h
    subst h
    rfl
  · intro only h hr
    subst h
    simp [buildRequestMessages, hr]
  · intro only h hr
    subst h
    simp [buildRequestMessages, hr]
  · intro hlen
    match history, hlen with
    | a :: b :: rest, _ =>
      show (let insertIdx := resolveDynamicSystemInsertIndex (a :: b :: rest)
        (a :: b :: rest).take insertIdx ++
          dynamicSystemMessage d :: (a :: b :: rest).drop insertIdx) =
        (a :: b :: rest) ++ [dynamicSystemMessage d]
      rw [resolveDynamicSystemInsertIndex_no_user _ hnouser]
      dsimp only
      rw [List.take_length, List.drop_length]

/-- Witness for C8 (amended): a three-turn history with no user turn
gets the synthetic block appended at the end. -/
theorem no_user_insertion_appends_at_end_witness :
    buildRequestMessages "note"
      [systemSeedMessage, assistantPlainMessage, assistantPlainMessage] =
      [systemSeedMessage, assistantPlainMessage, assistantPlainMessage] ++
        [dynamicSystemMessage "note"] :=
  (no_user_insertion_appends_at_end "note"
    [systemSeedMessage, assistantPlainMessage, assistantPlainMessage]
    (by decide)).2.2.2 (by decide)

/-! ## Helper lemmas: dispatcher -/

/-- Default result used by positional indexing in theorem statements. -/
def defaultToolResult : ToolResultMessageLike :=
  { role := "tool", tool_call_id := "", content := "" }

/-- Default call used by positional indexing in theorem statements. -/
def defaultToolCall : ToolCallLike :=
  { id := "", type := "", function := { name := "", arguments := "" } }

/-- The shared context as it stands when the dispatcher reaches call
`i` of a batch (the context threaded through the first `i` calls). -/
def dispatchContextAt {Ctx : Type} (ts : ToolSystem Ctx)
    (jsonParse : String → Except String JsValue) (calls : List ToolCallLike)
    (ctx : Ctx) (i : Nat) : Ctx :=
  (ts.handleToolCalls jsonParse (calls.take i) ctx).2

/-- A string that begins with the distinctive prefix `Error:`. -/
def isErrorText (s : String) : Prop := ∃ t, s = "Error:" ++ t

theorem handleToolCalls_cons {Ctx : Type} (ts : ToolSystem Ctx)
    (jsonParse : String → Except String JsValue) (call : ToolCallLike)
    (rest : List ToolCallLike) (ctx : Ctx) :
    ts.handleToolCalls jsonParse (call :: rest) ctx =
      ((dispatchOneCall ts jsonParse call ctx).1 ::
        (ts.handleToolCalls jsonParse rest (dispatchOneCall ts jsonParse call ctx).2).1,
       (ts.handleToolCalls jsonParse rest (dispatchOneCall ts jsonParse call ctx).2).2) :=
  rfl

theorem handleToolCalls_length {Ctx : Type} (ts : ToolSystem Ctx)
    (jsonParse : String → Except String JsValue) (calls : List ToolCallLike) (ctx : Ctx) :
    (ts.handleToolCalls jsonParse calls ctx).1.length = calls.length := by
  induction calls generalizing ctx with
  | nil => rfl
  | cons c rest ih => rw [handleToolCalls_cons]; simp [ih]

theorem dispatchOneCall_tool_call_id {Ctx : Type} (ts : ToolSystem Ctx)
    (jsonParse : String → Except String JsValue) (call : ToolCallLike) (ctx : Ctx) :
    (dispatchOneCall ts jsonParse call ctx).1.tool_call_id = call.id := by
  unfold dispatchOneCall
  dsimp only
  cases hp : jsonParse call.function.arguments <;> rfl

theorem dispatchOneCall_role {Ctx : Type} (ts : ToolSystem Ctx)
    (jsonParse : String → Except String JsValue) (call : ToolCallLike) (ctx : Ctx) :
    (dispatchOneCall ts jsonParse call ctx).1.role = "tool" := by
  unfold dispatchOneCall
  dsimp only
  cases hp : jsonParse call.function.arguments <;> rfl

theorem handleToolCalls_ids {Ctx : Type} (ts : ToolSystem Ctx)
    (jsonParse : String → Except String JsValue) (calls : List ToolCallLike) (ctx : Ctx) :
    (ts.handleToolCalls jsonParse calls ctx).1.map ToolResultMessageLike.tool_call_id =
      calls.map ToolCallLike.id := by
  induction calls generalizing ctx with
  | nil => rfl
  | cons c rest ih =>
    rw [handleToolCalls_cons]
    simp [ih, dispatchOneCall_tool_call_id]

theorem handleToolCalls_roles {Ctx : Type} (ts : ToolSystem Ctx)
    (jsonParse : String → Except String JsValue) (calls : List ToolCallLike) (ctx : Ctx) :
    ∀ r ∈ (ts.handleToolCalls jsonParse calls ctx).1, r.role = "tool" := by
  induction calls generalizing ctx with
  | nil => intro r hr; cases hr
  | cons c rest ih =>
    intro r hr
    rw [handleToolCalls_cons] at hr
    rcases List.mem_cons.mp hr with h | h
    · rw [h, dispatchOneCall_role]
    · exact ih _ r h

theorem handleToolCalls_getD {Ctx : Type} (ts : ToolSystem Ctx)
    (jsonParse : String → Except String JsValue) (calls : List ToolCallLike)
    (ctx : Ctx) (i : Nat) (h : i < calls.length) :
    (ts.handleToolCalls jsonParse calls ctx).1.getD i defaultToolResult =
      (dispatchOneCall ts jsonParse (calls.getD i defaultToolCall)
        (dispatchContextAt ts jsonParse calls ctx i)).1 := by
  induction calls generalizing ctx i with
  | nil => cases h
  | cons c rest ih =>
    rw [handleToolCalls_cons]
    cases i with
    | zero => rfl
    | succ j =>
      have hj : j < rest.length := Nat.lt_of_succ_lt_succ h
      have := ih (dispatchOneCall ts jsonParse c ctx).2 j hj
      simpa [dispatchContextAt, List.take_succ_cons, handleToolCalls_cons] using this

theorem isErrorText_append (a b : String) (h : isErrorText a) : isErrorText (a ++ b) := by
  obtain ⟨t, rfl⟩ := h
  exact ⟨t ++ b, String.append_assoc _ _ _⟩

theorem isErrorText_unknown (n : String) :
    isErrorText ("Error: unknown tool '" ++ n ++ "'") := by
  apply isErrorText_append
  apply isErrorText_append
  exact ⟨" unknown tool '", by decide⟩

theorem isErrorText_handler_failed (n m : String) :
    isErrorText ("Error: tool '" ++ n ++ "' failed - " ++ m) := by
  apply isErrorText_append
  apply isErrorText_append
  apply isErrorText_append
  exact ⟨" tool '", by decide⟩

theorem isErrorText_invalid_json (n e : String) :
    isErrorText ("Error: invalid JSON arguments for tool '" ++ n ++ "': " ++ e) := by
  apply isErrorText_append
  apply isErrorText_append
  apply isErrorText_append
  exact ⟨" invalid JSON arguments for tool '", by decide⟩

/-- The three failure modes of one call: unparsable argument text, an
unregistered tool name, or a handler that throws on the arguments the
dispatcher would hand it. -/
def dispatchFailure {Ctx : Type} (ts : ToolSystem Ctx)
    (jsonParse : String → Except String JsValue) (call : ToolCallLike) (ctx : Ctx) : Prop :=
  (∃ e, jsonParse call.function.arguments = .error e)
  ∨ List.lookup call.function.name ts.tools = none
  ∨ (∃ tool m ctx2 v, List.lookup call.function.name ts.tools = some tool ∧
      jsonParse call.function.arguments = .ok v ∧
      tool.handler ctx (if jsTypeof v == "object" && !(jsIsNull v) then v else JsValue.objV []) =
        (.error m, ctx2))

theorem dispatchOneCall_failure_error_text {Ctx : Type} (ts : ToolSystem Ctx)
    (jsonParse : String → Except String JsValue) (call : ToolCallLike) (ctx : Ctx)
    (h : dispatchFailure ts jsonParse call ctx) :
    isErrorText (dispatchOneCall ts jsonParse call ctx).1.content := by
  unfold dispatchOneCall
  dsimp only
  rcases h with ⟨e, he⟩ | hu | ⟨tool, m, ctx2, v, ht, hv, hh⟩
  · rw [he]
    exact isErrorText_invalid_json _ _
  · cases hp : jsonParse call.function.arguments with
    | error e => exact isErrorText_invalid_json _ _
    | ok v =>
      dsimp only
      unfold ToolSystem.execute
      rw [hu]
      exact isErrorText_unknown _
  · rw [hv]
    dsimp only
    unfold ToolSystem.execute
    rw [ht]
    dsimp only
    rw [hh]
    exact isErrorText_handler_failed _ _

/-! ## Claim C2 -/

/-- C2: the dispatcher never raises out of `handleToolCalls` — it is a
total function whose throw paths are all converted to values — and for
every batch it returns exactly one result per request, in request
order (the result ids are the call ids pointwise and every result is a
`tool` message), and each of the three failure modes (unparsable
argument text, unregistered tool name, throwing handler) yields a
textual result whose content begins with `Error:`. -/
theorem dispatcher_never_raises {Ctx : Type} (ts : ToolSystem Ctx)
    (jsonParse : String → Except String JsValue) (calls : List ToolCallLike) (ctx : Ctx) :
    (ts.handleToolCalls jsonParse calls ctx).1.length = calls.length
    ∧ (ts.handleToolCalls jsonParse calls ctx).1.map ToolResultMessageLike.tool_call_id =
        calls.map ToolCallLike.id
    ∧ (∀ r ∈ (ts.handleToolCalls jsonParse calls ctx).1, r.role = "tool")
    ∧ (∀ i, i < calls.length →
        dispatchFailure ts jsonParse (calls.getD i defaultToolCall)
          (dispatchContextAt ts jsonParse calls ctx i) →
        isErrorText
          (((ts.handleToolCalls jsonParse calls ctx).1.getD i defaultToolResult).content)) := by
  refine ⟨handleToolCalls_length ts jsonParse calls ctx,
    handleToolCalls_ids ts jsonParse calls ctx,
    handleToolCalls_roles ts jsonParse calls ctx, ?_⟩
  intro i hi hf
  rw [handleToolCalls_getD ts jsonParse calls ctx i hi]
  exact dispatchOneCall_failure_error_text _ _ _ _ hf

/-- A tool whose handler always throws. -/
def boomTool : Tool Unit :=
  { name := "boom", description := "always throws",
    handler := fun _ _ => (Except.error "kaboom", ()) }

/-- A one-tool registry holding only `boom`. -/
def witnessToolSystem : ToolSystem Unit := { tools := [("boom", boomTool)] }

/-- A parse oracle failing exactly on the text "notjson". -/
def witnessParse : String → Except String JsValue :=
  fun s => if s = "notjson" then Except.error "Unexpected token" else Except.ok (JsValue.objV [])

/-- A request whose argument text does not parse. -/
def badJsonCall : ToolCallLike :=
  { id := "c1", type := "function", function := { name := "boom", arguments := "notjson" } }

/-- A request naming an unregistered tool. -/
def ghostCall : ToolCallLike :=
  { id := "c2", type := "function", function := { name := "ghost", arguments := "ok" } }

/-- A request whose handler throws. -/
def throwCall : ToolCallLike :=
  { id := "c3", type := "function", function := { name := "boom", arguments := "ok" } }

/-- The three-failure-mode batch of the claim. -/
def witnessBatch : List ToolCallLike := [badJsonCall, ghostCall, throwCall]

/-- Witness for C2: a batch with an unparsable-argument request, an
unregistered-tool request, and a throwing-handler request yields three
results, each with `Error:`-prefixed content. -/
theorem dispatcher_never_raises_witness :
    (witnessToolSystem.handleToolCalls witnessParse witnessBatch ()).1.length =
      witnessBatch.length
    ∧ isErrorText
        (((witnessToolSystem.handleToolCalls witnessParse witnessBatch ()).1.getD 0
          defaultToolResult).content)
    ∧ isErrorText
        (((witnessToolSystem.handleToolCalls witnessParse witnessBatch ()).1.getD 1
          defaultToolResult).content)
    ∧ isErrorText
        (((witnessToolSystem.handleToolCalls witnessParse witnessBatch ()).1.getD 2
          defaultToolResult).content) := by
  have h := dispatcher_never_raises witnessToolSystem witnessParse witnessBatch ()
  refine ⟨h.1, ?_, ?_, ?_⟩
  · exact h.2.2.2 0 (by decide) (Or.inl ⟨"Unexpected token", rfl⟩)
  · exact h.2.2.2 1 (by decide) (Or.inr (Or.inl rfl))
  · exact h.2.2.2 2 (by decide)
      (Or.inr (Or.inr ⟨boomTool, "kaboom", (), JsValue.objV [], rfl, rfl, rfl⟩))

/-! ## Claim C7 -/

/-- C7: a request whose argument text fails to parse gets a synthesized
error result without its handler being invoked — the head result is an
explicit literal mentioning no handler, and the shared context flows to
the rest of the batch unchanged — and the remaining calls are processed
normally (the batch is not aborted). -/
theorem parse_failure_isolated {Ctx : Type} (ts : ToolSystem Ctx)
    (jsonParse : String → Except String JsValue) (call : ToolCallLike)
    (rest : List ToolCallLike) (ctx : Ctx) (e : String)
    (hparse : jsonParse call.function.arguments = Except.error e) :
    ts.handleToolCalls jsonParse (call :: rest) ctx =
      (({ role := "tool", tool_call_id := call.id,
          content := "Error: invalid JSON arguments for tool '" ++
            call.function.name ++ "': " ++ e } : ToolResultMessageLike) ::
        (ts.handleToolCalls jsonParse rest ctx).1,
       (ts.handleToolCalls jsonParse rest ctx).2) := by
  have hd : dispatchOneCall ts jsonParse call ctx =
      ({ role := "tool", tool_call_id := call.id,
         content := "Error: invalid JSON arguments for tool '" ++
           call.function.name ++ "': " ++ e }, ctx) := by
    unfold dispatchOneCall
    dsimp only
    rw [hparse]
  rw [handleToolCalls_cons, hd]

/-- Witness for C7: the unparsable first request of a two-request batch
is answered by the synthesized error result, and the second request is
still dispatched from the unchanged context. -/
theorem parse_failure_isolated_witness :
    witnessToolSystem.handleToolCalls witnessParse [badJsonCall, throwCall] () =
      (({ role := "tool", tool_call_id := badJsonCall.id,
          content := "Error: invalid JSON arguments for tool '" ++
            badJsonCall.function.name ++ "': " ++ "Unexpected token" } : ToolResultMessageLike) ::
        (witnessToolSystem.handleToolCalls witnessParse [throwCall] ()).1,
       (witnessToolSystem.handleToolCalls witnessParse [throwCall] ()).2) :=
  parse_failure_isolated witnessToolSystem witnessParse badJsonCall [throwCall] ()
    "Unexpected token" rfl

/-! ## Claim C10 -/

/-- C10 (amended): for a request whose argument text parses to a value
that is not a JSON object, the dispatcher synthesizes no error: when
the value is an array, the array itself (which also satisfies the
JavaScript `typeof === "object"` test) is handed to the tool; when the
value is `null` or a primitive (`typeof` not `"object"`), the empty
object is substituted; in both cases the named tool is executed and its
output is returned as the result, and the batch continues. -/
theorem non_object_arguments {Ctx : Type} (ts : ToolSystem Ctx)
    (jsonParse : String → Except String JsValue) (call : ToolCallLike)
    (rest : List ToolCallLike) (ctx : Ctx) (v : JsValue)
    (hparse : jsonParse call.function.arguments = Except.ok v) :
    (∀ l, v = JsValue.arrV l →
      ts.handleToolCalls jsonParse (call :: rest) ctx =
        (({ role := "tool", tool_call_id := call.id,
            content := (ts.execute call.function.name ctx (JsValue.arrV l)).1 } :
            ToolResultMessageLike) ::
          (ts.handleToolCalls jsonParse rest
            (ts.execute call.function.name ctx (JsValue.arrV l)).2).1,
         (ts.handleToolCalls jsonParse rest
           (ts.execute call.function.name ctx (JsValue.arrV l)).2).2))
    ∧ ((v = JsValue.nullV ∨ jsTypeof v ≠ "object") →
      ts.handleToolCalls jsonParse (call :: rest) ctx =
        (({ role := "tool", tool_call_id := call.id,
            content := (ts.execute call.function.name ctx (JsValue.objV [])).1 } :
            ToolResultMessageLike) ::
          (ts.handleToolCalls jsonParse rest
            (ts.execute call.function.name ctx (JsValue.objV [])).2).1,
         (ts.handleToolCalls jsonParse rest
           (ts.execute call.function.name ctx (JsValue.objV [])).2).2)) := by
  constructor
  · intro l hl
    subst hl
    have hd : dispatchOneCall ts jsonParse call ctx =
        ({ role := "tool", tool_call_id := call.id,
           content := (ts.execute call.function.name ctx (JsValue.arrV l)).1 },
         (ts.execute call.function.name ctx (JsValue.arrV l)).2) := by
      unfold dispatchOneCall
      dsimp only
      rw [hparse]
      dsimp only
      rw [if_pos (show (jsTypeof (JsValue.arrV l) == "object" &&
        !jsIsNull (JsValue.arrV l)) = true from rfl)]
    rw [handleToolCalls_cons, hd]
  · intro hv
    have hcond : (jsTypeof v == "object" && !jsIsNull v) = false := by
      rcases hv with h | h
      · subst h
        rfl
      · have h1 : (jsTypeof v == "object") = false := beq_eq_false_iff_ne.mpr h
        rw [h1, Bool.false_and]
    have hd : dispatchOneCall ts jsonParse call ctx =
        ({ role := "tool", tool_call_id := call.id,
           content := (ts.execute call.function.name ctx (JsValue.objV [])).1 },
         (ts.execute call.function.name ctx (JsValue.objV [])).2) := by
      unfold dispatchOneCall
      dsimp only
      rw [hparse]
      dsimp only
      have hif : (if (jsTypeof v == "object" && !jsIsNull v) = true then v
          else JsValue.objV []) = JsValue.objV [] := by
        rw [hcond]
        rfl
      rw [hif]
    rw [handleToolCalls_cons, hd]

/-- A tool whose handler reports whether its arguments are an array. -/
def probeTool : Tool Unit :=
  { name := "probe", description := "reports the shape of its arguments",
    handler := fun ctx v =>
      (Except.ok (match v with | JsValue.arrV _ => "saw-array" | _ => "saw-other"), ctx) }

/-- A one-tool registry holding only `probe`. -/
def probeSystem : ToolSystem Unit := { tools := [("probe", probeTool)] }

/-- A parse oracle for the two payloads of the C10 scenarios. -/
def probeParse : String → Except String JsValue :=
  fun s =>
    if s = "[1,2]" then Except.ok (JsValue.arrV [JsValue.numV 1, JsValue.numV 2])
    else if s = "42" then Except.ok (JsValue.numV 42)
    else Except.error "unsupported"

/-- A request whose argument text is the JSON array "[1,2]". -/
def arrayArgsCall : ToolCallLike :=
  { id := "c1", type := "function", function := { name := "probe", arguments := "[1,2]" } }

/-- A request whose argument text is the JSON number "42". -/
def num42Call : ToolCallLike :=
  { id := "c4", type := "function", function := { name := "probe", arguments := "42" } }

/-- Counterexample to C10 as stated: for the argument text "[1,2]"
(valid JSON, not a JSON object) the dispatcher does not substitute the
empty object — the handler observes the array itself, so the result is
the handler's output on the array, not its output on the empty object. -/
theorem non_object_arguments_counterexample :
    (probeSystem.handleToolCalls probeParse [arrayArgsCall] ()).1 =
      [{ role := "tool", tool_call_id := "c1", content := "saw-array" }]
    ∧ (probeSystem.execute "probe" () (JsValue.objV [])).1 = "saw-other"
    ∧ ("saw-array" : String) ≠ "saw-other" := by
  refine ⟨?_, ?_, ?_⟩
  · decide
  · decide
  · decide

/-- Witness for C10 (amended): the JSON number "42" makes the
dispatcher run the probe tool on the substituted empty object. -/
theorem non_object_arguments_witness :
    probeSystem.handleToolCalls probeParse [num42Call] () =
      (({ role := "tool", tool_call_id := num42Call.id,
          content := (probeSystem.execute num42Call.function.name () (JsValue.objV [])).1 } :
          ToolResultMessageLike) ::
        (probeSystem.handleToolCalls probeParse []
          (probeSystem.execute num42Call.function.name () (JsValue.objV [])).2).1,
       (probeSystem.handleToolCalls probeParse []
         (probeSystem.execute num42Call.function.name () (JsValue.objV [])).2).2) :=
  (non_object_arguments probeSystem probeParse num42Call [] () (JsValue.numV 42) rfl).2
    (Or.inr (by decide))

/-! ## Helper lemmas: tool loop -/

theorem runToolLoopAux_succ_calls {Ctx : Type} (ts : ToolSystem Ctx)
    (jsonParse : String → Except String JsValue) (streams : Nat → List StreamDelta)
    (n round : Nat) (history : List ChatMessage) (ctx : Ctx) (requests : Nat)
    (h : (consumeChatStream (streams round)).tool_calls.getD [] ≠ []) :
    runToolLoopAux ts jsonParse streams (n + 1) round history ctx requests =
      runToolLoopAux ts jsonParse streams n (round + 1)
        ((history ++ [{ consumeChatStream (streams round) with
            content := (consumeChatStream (streams round)).reasoning_content }]) ++
          (ts.handleToolCalls jsonParse
            ((consumeChatStream (streams round)).tool_calls.getD []) ctx).1.map toToolMessage)
        (ts.handleToolCalls jsonParse
          ((consumeChatStream (streams round)).tool_calls.getD []) ctx).2
        (requests + 1) := by
  have hl : 0 < ((consumeChatStream (streams round)).tool_calls.getD []).length :=
    List.length_pos.mpr h
  conv_lhs => rw [runToolLoopAux]
  dsimp only
  rw [if_pos hl, if_pos hl]

theorem runToolLoopAux_succ_nocalls {Ctx : Type} (ts : ToolSystem Ctx)
    (jsonParse : String → Except String JsValue) (streams : Nat → List StreamDelta)
    (n round : Nat) (history : List ChatMessage) (ctx : Ctx) (requests : Nat)
    (h : (consumeChatStream (streams round)).tool_calls.getD [] = []) :
    runToolLoopAux ts jsonParse streams (n + 1) round history ctx requests =
      ⟨(consumeChatStream (streams round)).content,
       history ++ [consumeChatStream (streams round)], ctx, requests + 1⟩ := by
  have hl : ¬ (0 < ((consumeChatStream (streams round)).tool_calls.getD []).length) := by
    rw [h]
    simp
  conv_lhs => rw [runToolLoopAux]
  dsimp only
  rw [if_neg hl, if_neg hl]
  rfl

/-! ## Claim C6 -/

/-- C6: in a round whose finalized turn carries invocations, the turn's
visible content is replaced by its reasoning text before being
appended to the history, the dispatcher runs the batch, the results are
appended as tool messages, and the loop advances to the next round; in
a round whose finalized turn carries none, the turn is appended
unmodified and its content field is returned as the final text. -/
theorem round_content_policy {Ctx : Type} (ts : ToolSystem Ctx)
    (jsonParse : String → Except String JsValue) (streams : Nat → List StreamDelta)
    (n round : Nat) (history : List ChatMessage) (ctx : Ctx) (requests : Nat) :
    ((consumeChatStream (streams round)).tool_calls.getD [] ≠ [] →
      runToolLoopAux ts jsonParse streams (n + 1) round history ctx requests =
        runToolLoopAux ts jsonParse streams n (round + 1)
          ((history ++ [{ consumeChatStream (streams round) with
              content := (consumeChatStream (streams round)).reasoning_content }]) ++
            (ts.handleToolCalls jsonParse
              ((consumeChatStream (streams round)).tool_calls.getD []) ctx).1.map
              toToolMessage)
          (ts.handleToolCalls jsonParse
            ((consumeChatStream (streams round)).tool_calls.getD []) ctx).2
          (requests + 1))
    ∧ ((consumeChatStream (streams round)).tool_calls.getD [] = [] →
      runToolLoopAux ts jsonParse streams (n + 1) round history ctx requests =
        ⟨(consumeChatStream (streams round)).content,
         history ++ [consumeChatStream (streams round)], ctx, requests + 1⟩) :=
  ⟨runToolLoopAux_succ_calls ts jsonParse streams n round history ctx requests,
   runToolLoopAux_succ_nocalls ts jsonParse streams n round history ctx requests⟩

/-- A one-chunk stream whose finalized turn carries one invocation. -/
def loopCallStream : List StreamDelta := [{ tool_calls := some [slotZeroDelta] }]

/-- The constant oracle answering every round with `loopCallStream`. -/
def streamsAlwaysCall : Nat → List StreamDelta := fun _ => loopCallStream

/-- A one-chunk stream whose finalized turn carries only text. -/
def noCallStream : List StreamDelta := [{ content := some "done" }]

/-- The constant oracle answering every round with `noCallStream`. -/
def streamsNoCall : Nat → List StreamDelta := fun _ => noCallStream

/-- Witness for C6: one concrete round of each kind. -/
theorem round_content_policy_witness :
    (runToolLoopAux witnessToolSystem witnessParse streamsAlwaysCall 1 0 [] () 0 =
      runToolLoopAux witnessToolSystem witnessParse streamsAlwaysCall 0 1
        (([] ++ [{ consumeChatStream (streamsAlwaysCall 0) with
            content := (consumeChatStream (streamsAlwaysCall 0)).reasoning_content }]) ++
          (witnessToolSystem.handleToolCalls witnessParse
            ((consumeChatStream (streamsAlwaysCall 0)).tool_calls.getD []) ()).1.map
            toToolMessage)
        (witnessToolSystem.handleToolCalls witnessParse
          ((consumeChatStream (streamsAlwaysCall 0)).tool_calls.getD []) ()).2
        1)
    ∧ (runToolLoopAux witnessToolSystem witnessParse streamsNoCall 1 0 [] () 0 =
      ⟨(consumeChatStream (streamsNoCall 0)).content,
       [] ++ [consumeChatStream (streamsNoCall 0)], (), 1⟩) :=
  ⟨(round_content_policy witnessToolSystem witnessParse streamsAlwaysCall 0 0 [] () 0).1
      (by decide),
   (round_content_policy witnessToolSystem witnessParse streamsNoCall 0 0 [] () 0).2
      (by decide)⟩

/-! ## Claim C5 -/

theorem runToolLoopAux_exhaust {Ctx : Type} (ts : ToolSystem Ctx)
    (jsonParse : String → Except String JsValue) (streams : Nat → List StreamDelta) :
    ∀ (n round : Nat) (history : List ChatMessage) (ctx : Ctx) (requests : Nat),
      (∀ r, r < n → (consumeChatStream (streams (round + r))).tool_calls.getD [] ≠ []) →
      (runToolLoopAux ts jsonParse streams n round history ctx requests).finalText = none
      ∧ (runToolLoopAux ts jsonParse streams n round history ctx requests).requests =
          requests + n := by
  intro n
  induction n with
  | zero => intro round history ctx requests _; exact ⟨rfl, rfl⟩
  | succ n ih =>
    intro round history ctx requests h
    have h0 : (consumeChatStream (streams round)).tool_calls.getD [] ≠ [] := by
      have := h 0 (Nat.succ_pos n)
      simpa using this
    rw [runToolLoopAux_succ_calls ts jsonParse streams n round history ctx requests h0]
    have hs : ∀ r, r < n →
        (consumeChatStream (streams (round + 1 + r))).tool_calls.getD [] ≠ [] := by
      intro r hr
      have := h (r + 1) (Nat.succ_lt_succ hr)
      rwa [show round + (r + 1) = round + 1 + r by omega] at this
    obtain ⟨h1, h2⟩ := ih (round + 1) _ _ (requests + 1) hs
    refine ⟨h1, ?_⟩
    rw [h2]
    omega

/-- C5: when every one of the `maxToolRounds` rounds finalizes a turn
carrying at least one invocation, the loop issues exactly
`maxToolRounds` requests to the completion service and returns the
distinct "no answer" sentinel (`none`), which is not the empty
string. -/
theorem round_limit_sentinel {Ctx : Type} (ts : ToolSystem Ctx)
    (jsonParse : String → Except String JsValue) (streams : Nat → List StreamDelta)
    (maxToolRounds : Nat) (history : List ChatMessage) (ctx : Ctx)
    (h : ∀ r, r < maxToolRounds →
      (consumeChatStream (streams r)).tool_calls.getD [] ≠ []) :
    (runToolLoop ts jsonParse streams maxToolRounds history ctx).finalText = none
    ∧ (runToolLoop ts jsonParse streams maxToolRounds history ctx).requests = maxToolRounds
    ∧ (runToolLoop ts jsonParse streams maxToolRounds history ctx).finalText ≠ some "" := by
  have key := runToolLoopAux_exhaust ts jsonParse streams maxToolRounds 0 history ctx 0
    (by intro r hr; simpa using h r hr)
  refine ⟨key.1, ?_, ?_⟩
  · show (runToolLoopAux ts jsonParse streams maxToolRounds 0 history ctx 0).requests =
      maxToolRounds
    rw [key.2, Nat.zero_add]
  · show (runToolLoopAux ts jsonParse streams maxToolRounds 0 history ctx 0).finalText ≠
      some ""
    rw [key.1]
    intro hne
    cases hne

/-- Witness for C5: with `max_rounds = 2` and every round's turn
carrying one invocation, the loop returns the sentinel after exactly
two requests. -/
theorem round_limit_sentinel_witness :
    (runToolLoop witnessToolSystem witnessParse streamsAlwaysCall 2 [] ()).finalText = none
    ∧ (runToolLoop witnessToolSystem witnessParse streamsAlwaysCall 2 [] ()).requests = 2 :=
  have h := round_limit_sentinel witnessToolSystem witnessParse streamsAlwaysCall 2 [] ()
    (by
      intro r hr
      show (consumeChatStream loopCallStream).tool_calls.getD [] ≠ []
      decide)
  ⟨h.1, h.2.1⟩

/-! ## Claim C9: pairing invariant of the conversation history -/

/-- The invocation ids declared by a message. -/
def callIdsOf (m : ChatMessage) : List String :=
  (m.tool_calls.getD []).map ToolCallLike.id

/-- An assistant turn that carries at least one invocation. -/
def isInvokingAssistant (m : ChatMessage) : Bool :=
  m.role == "assistant" && !(m.tool_calls.getD []).isEmpty

/-- Structural pairing automaton over a history: `pending` is the list
of invocations still awaiting their tool results.  A tool turn is legal
only while pending and only when it answers the next pending
invocation; an assistant turn with invocations opens a new batch. -/
def pairState : List ToolCallLike → List ChatMessage → Option (List ToolCallLike)
  | pending, [] => some pending
  | [], m :: rest =>
    if m.role = "tool" then none
    else pairState (if m.role = "assistant" then m.tool_calls.getD [] else []) rest
  | c :: cs, m :: rest =>
    if m.role = "tool" ∧ m.tool_call_id = some c.id then pairState cs rest else none

/-- Every batch of the history declares pairwise distinct invocation
ids. -/
def nodupBatches (H : List ChatMessage) : Prop := ∀ m ∈ H, (callIdsOf m).Nodup

/-- The pairing property as the claim states it: every tool turn's
`call_id` references exactly one invocation of the nearest preceding
assistant turn that carries invocations, and immediately after each
invoking assistant turn come exactly its tool results, in the order of
its invocation list. -/
def toolPairingClaim (H : List ChatMessage) : Prop :=
  (∀ pre m post, H = pre ++ m :: post → m.role = "tool" →
    ∃ a, pre.reverse.find? isInvokingAssistant = some a ∧
      (callIdsOf a).count (m.tool_call_id.getD "") = 1)
  ∧ (∀ pre a post, H = pre ++ a :: post → isInvokingAssistant a = true →
      (post.take (callIdsOf a).length).map ChatMessage.tool_call_id =
        (callIdsOf a).map (fun i => some i)
      ∧ ∀ m ∈ post.take (callIdsOf a).length, m.role = "tool")

theorem pairState_append (ys : List ChatMessage) :
    ∀ (xs : List ChatMessage) (p : List ToolCallLike),
      pairState p (xs ++ ys) = (pairState p xs).bind (fun q => pairState q ys) := by
  intro xs
  induction xs with
  | nil =>
    intro p
    cases p <;> rfl
  | cons m xs ih =>
    intro p
    cases p with
    | nil =>
      by_cases hm : m.role = "tool"
      · simp [pairState, hm]
      · simp [pairState, hm, ih]
    | cons c cs =>
      by_cases hm : m.role = "tool" ∧ m.tool_call_id = some c.id
      · simp [pairState, hm, ih]
      · simp [pairState, hm]

theorem pairState_batch (calls : List ToolCallLike) :
    ∀ results : List ToolResultMessageLike,
      results.map ToolResultMessageLike.tool_call_id = calls.map ToolCallLike.id →
      pairState calls (results.map toToolMessage) = some [] := by
  induction calls with
  | nil =>
    intro results h
    have h0 : results.map ToolResultMessageLike.tool_call_id = [] := by simpa using h
    have : results = [] := List.map_eq_nil_iff.mp h0
    subst this
    rfl
  | cons c cs ih =>
    intro results h
    cases results with
    | nil => simp at h
    | cons r rs =>
      simp only [List.map_cons, List.cons.injEq] at h
      show pairState (c :: cs) (toToolMessage r :: rs.map toToolMessage) = some []
      have hcond : (toToolMessage r).role = "tool" ∧
          (toToolMessage r).tool_call_id = some c.id := by
        constructor
        · rfl
        · show some r.tool_call_id = some c.id
          rw [h.1]
      rw [pairState, if_pos hcond]
      exact ih rs h.2

theorem pairState_calls_split :
    ∀ (calls : List ToolCallLike) (msgs : List ChatMessage),
      pairState calls msgs = some [] →
      ∃ batch rest, msgs = batch ++ rest
        ∧ batch.map ChatMessage.tool_call_id = calls.map (fun c => some c.id)
        ∧ (∀ m ∈ batch, m.role = "tool")
        ∧ pairState [] rest = some [] := by
  intro calls
  induction calls with
  | nil =>
    intro msgs h
    refine ⟨[], msgs, rfl, rfl, ?_, h⟩
    intro m hm
    cases hm
  | cons c cs ih =>
    intro msgs h
    cases msgs with
    | nil => simp [pairState] at h
    | cons m rest =>
      rw [pairState] at h
      by_cases hm : m.role = "tool" ∧ m.tool_call_id = some c.id
      · rw [if_pos hm] at h
        obtain ⟨batch, rest', heq, hids, hroles, hrest⟩ := ih rest h
        refine ⟨m :: batch, rest', by rw [heq]; rfl, ?_, ?_, hrest⟩
        · simp only [List.map_cons, hids, hm.2]
        · intro x hx
          rcases List.mem_cons.mp hx with h1 | h2
          · rw [h1]; exact hm.1
          · exact hroles x h2
      · rw [if_neg hm] at h
        cases h

theorem toolPairingClaim_nil : toolPairingClaim [] := by
  constructor
  · intro pre mt post hdec _
    exact absurd hdec (by simp)
  · intro pre a post hdec _
    exact absurd hdec (by simp)

theorem find?_tool_roles_none (l : List ChatMessage)
    (h : ∀ p ∈ l, p.role = "tool") :
    l.find? isInvokingAssistant = none := by
  rw [List.find?_eq_none]
  intro x hx hpx
  unfold isInvokingAssistant at hpx
  rw [h x hx] at hpx
  simp at hpx

theorem pairState_toolPairingClaim :
    ∀ (n : Nat) (H : List ChatMessage), H.length ≤ n →
      pairState [] H = some [] → nodupBatches H → toolPairingClaim H := by
  intro n
  induction n with
  | zero =>
    intro H hlen _ _
    have h0 : H = [] := List.length_eq_zero.mp (Nat.le_zero.mp hlen)
    subst h0
    exact toolPairingClaim_nil
  | succ n ih =>
    intro H hlen hps hnd
    cases H with
    | nil => exact toolPairingClaim_nil
    | cons m rest =>
      rw [pairState] at hps
      by_cases hm : m.role = "tool"
      · rw [if_pos hm] at hps
        cases hps
      · rw [if_neg hm] at hps
        by_cases ha : isInvokingAssistant m = true
        · -- the head is an assistant turn opening a batch
          have hrole : m.role = "assistant" := by
            unfold isInvokingAssistant at ha
            rw [Bool.and_eq_true] at ha
            exact beq_iff_eq.mp ha.1
          rw [if_pos hrole] at hps
          obtain ⟨batch, rest', heq, hids, hroles, hrest⟩ :=
            pairState_calls_split _ _ hps
          subst heq
          have hlen' : rest'.length ≤ n := by
            simp [List.length_append] at hlen
            omega
          have hndrest : nodupBatches rest' := by
            intro x hx
            exact hnd x (by simp [hx])
          have hclaim' := ih rest' hlen' hrest hndrest
          have hbatchlen : batch.length = (callIdsOf m).length := by
            have h1 := congrArg List.length hids
            simpa [callIdsOf] using h1
          have hndm : (callIdsOf m).Nodup := hnd m (by simp)
          constructor
          · intro pre mt post hdec htool
            cases pre with
            | nil =>
              rw [List.nil_append] at hdec
              injection hdec with h1 _
              rw [← h1] at htool
              exact absurd htool hm
            | cons p0 pre' =>
              injection hdec with h1 h2
              subst h1
              rcases List.append_eq_append_iff.mp h2 with
                ⟨ys, hpre', hrest'⟩ | ⟨xs, hbatch2, hxs⟩
              · -- the tool turn lies beyond the batch
                obtain ⟨a, hfind, hcount⟩ := hclaim'.1 ys mt post hrest' htool
                refine ⟨a, ?_, hcount⟩
                subst hpre'
                rw [List.reverse_cons, List.reverse_append,
                  List.find?_append, List.find?_append, hfind]
                rfl
              · cases xs with
                | nil =>
                  have hr' : rest' = [] ++ mt :: post := by simpa using hxs.symm
                  obtain ⟨a, hfind, _⟩ := hclaim'.1 [] mt post hr' htool
                  simp at hfind
                | cons x xs' =>
                  injection hxs with hx1 hx2
                  subst hx1
                  have hpre'roles : ∀ p ∈ pre', p.role = "tool" := by
                    intro p hp
                    refine hroles p ?_
                    rw [hbatch2]
                    exact List.mem_append_left _ hp
                  have hmem : mt.tool_call_id ∈ batch.map ChatMessage.tool_call_id := by
                    refine List.mem_map_of_mem _ ?_
                    rw [hbatch2]
                    exact List.mem_append_right _ (List.mem_cons_self mt xs')
                  rw [hids] at hmem
                  obtain ⟨c, hcmem, hcid⟩ := List.mem_map.mp hmem
                  refine ⟨m, ?_, ?_⟩
                  · rw [List.reverse_cons, List.find?_append,
                      find?_tool_roles_none pre'.reverse
                        (fun p hp => hpre'roles p (List.mem_reverse.mp hp)),
                      Option.none_or]
                    rw [List.find?_cons_of_pos _ ha]
                  · rw [← hcid]
                    show (callIdsOf m).count ((some c.id).getD "") = 1
                    rw [Option.getD_some]
                    refine List.count_eq_one_of_mem hndm ?_
                    exact List.mem_map_of_mem _ hcmem
          · intro pre a post hdec hcar
            cases pre with
            | nil =>
              rw [List.nil_append] at hdec
              injection hdec with h1 h2
              subst h1
              constructor
              · rw [← h2, ← hbatchlen, List.take_left, hids]
                unfold callIdsOf
                rw [List.map_map]
                rfl
              · intro x hx
                rw [← h2, ← hbatchlen, List.take_left] at hx
                exact hroles x hx
            | cons p0 pre' =>
              injection hdec with h1 h2
              subst h1
              rcases List.append_eq_append_iff.mp h2 with
                ⟨ys, hpre', hrest'⟩ | ⟨xs, hbatch2, hxs⟩
              · exact hclaim'.2 ys a post hrest' hcar
              · cases xs with
                | nil =>
                  exact hclaim'.2 [] a post (by simpa using hxs.symm) hcar
                | cons x xs' =>
                  injection hxs with hx1 hx2
                  subst hx1
                  have htoolrole : a.role = "tool" := by
                    refine hroles a ?_
                    rw [hbatch2]
                    exact List.mem_append_right _ (List.mem_cons_self a xs')
                  unfold isInvokingAssistant at hcar
                  rw [htoolrole] at hcar
                  simp at hcar
        · -- the head opens no batch
          have hpend : (if m.role = "assistant" then m.tool_calls.getD [] else []) = [] := by
            by_cases hr : m.role = "assistant"
            · rw [if_pos hr]
              by_contra hne
              apply ha
              unfold isInvokingAssistant
              rw [hr, Bool.and_eq_true]
              refine ⟨by simp, ?_⟩
              cases hl : m.tool_calls.getD [] with
              | nil => exact absurd hl hne
              | cons a l => rfl
            · rw [if_neg hr]
          rw [hpend] at hps
          have hlenr : rest.length ≤ n := by
            simp [List.length_cons] at hlen
            omega
          have hclaim' := ih rest hlenr hps
            (fun x hx => hnd x (List.mem_cons_of_mem _ hx))
          constructor
          · intro pre mt post hdec htool
            cases pre with
            | nil =>
              rw [List.nil_append] at hdec
              injection hdec with h1 _
              rw [← h1] at htool
              exact absurd htool hm
            | cons p0 pre' =>
              injection hdec with h1 h2
              subst h1
              obtain ⟨a, hfind, hcount⟩ := hclaim'.1 pre' mt post h2 htool
              refine ⟨a, ?_, hcount⟩
              rw [List.reverse_cons, List.find?_append, hfind]
              rfl
          · intro pre a post hdec hcar
            cases pre with
            | nil =>
              rw [List.nil_append] at hdec
              injection hdec with h1 _
              rw [← h1] at hcar
              exact absurd hcar ha
            | cons p0 pre' =>
              injection hdec with h1 h2
              subst h1
              exact hclaim'.2 pre' a post h2 hcar

theorem pairState_nil_msgs (p : List ToolCallLike) : pairState p [] = some p := by
  cases p <;> rfl

theorem pairState_single_assistant (msg : ChatMessage)
    (hrole : msg.role = "assistant") :
    pairState [] [msg] = some (msg.tool_calls.getD []) := by
  rw [pairState]
  rw [if_neg (by rw [hrole]; decide)]
  rw [if_pos hrole]
  exact pairState_nil_msgs _

theorem runToolLoopAux_preserves_pairing {Ctx : Type} (ts : ToolSystem Ctx)
    (jsonParse : String → Except String JsValue) (streams : Nat → List StreamDelta)
    (hstreams : ∀ r, (consumeChatStream (streams r)).role = "assistant" ∧
      (callIdsOf (consumeChatStream (streams r))).Nodup) :
    ∀ (n round : Nat) (history : List ChatMessage) (ctx : Ctx) (requests : Nat),
      pairState [] history = some [] → nodupBatches history →
      pairState []
          (runToolLoopAux ts jsonParse streams n round history ctx requests).history = some []
      ∧ nodupBatches (runToolLoopAux ts jsonParse streams n round history ctx requests).history := by
  intro n
  induction n with
  | zero =>
    intro round history ctx requests hp hn
    exact ⟨hp, hn⟩
  | succ n ih =>
    intro round history ctx requests hp hn
    obtain ⟨hrole, hnodup⟩ := hstreams round
    by_cases hc : (consumeChatStream (streams round)).tool_calls.getD [] = []
    · rw [runToolLoopAux_succ_nocalls ts jsonParse streams n round history ctx requests hc]
      constructor
      · show pairState [] (history ++ [consumeChatStream (streams round)]) = some []
        rw [pairState_append, hp, Option.some_bind,
          pairState_single_assistant _ hrole, hc]
      · intro x hx
        rcases List.mem_append.mp hx with h1 | h2
        · exact hn x h1
        · rw [List.mem_singleton] at h2
          rw [h2]
          exact hnodup
    · rw [runToolLoopAux_succ_calls ts jsonParse streams n round history ctx requests hc]
      apply ih
      · have hrole' : ({ consumeChatStream (streams round) with
            content := (consumeChatStream (streams round)).reasoning_content } :
            ChatMessage).role = "assistant" := hrole
        rw [pairState_append, pairState_append, hp, Option.some_bind,
          pairState_single_assistant _ hrole', Option.some_bind]
        show pairState ((consumeChatStream (streams round)).tool_calls.getD [])
          ((ts.handleToolCalls jsonParse
            ((consumeChatStream (streams round)).tool_calls.getD []) ctx).1.map
            toToolMessage) = some []
        exact pairState_batch _ _ (handleToolCalls_ids ts jsonParse _ ctx)
      · intro x hx
        rcases List.mem_append.mp hx with h1 | h2
        · rcases List.mem_append.mp h1 with h3 | h4
          · exact hn x h3
          · rw [List.mem_singleton] at h4
            rw [h4]
            exact hnodup
        · obtain ⟨r, _, hr2⟩ := List.mem_map.mp h2
          rw [← hr2]
          show (callIdsOf (toToolMessage r)).Nodup
          exact List.nodup_nil

/-- C9 (amended): starting from a well-paired history, and provided
each round's stream yields an assistant-role turn whose invocation ids
are pairwise distinct (as the upstream protocol guarantees), every
history produced by the tool loop's appends is well paired: every tool
turn's `call_id` references exactly one invocation of the nearest
preceding invoking assistant turn, and the tool results of one batch
immediately follow that assistant turn in the order of its invocation
list. -/
theorem history_pairing_invariant {Ctx : Type} (ts : ToolSystem Ctx)
    (jsonParse : String → Except String JsValue) (streams : Nat → List StreamDelta)
    (maxToolRounds : Nat) (history : List ChatMessage) (ctx : Ctx)
    (hp : pairState [] history = some []) (hn : nodupBatches history)
    (hstreams : ∀ r, (consumeChatStream (streams r)).role = "assistant" ∧
      (callIdsOf (consumeChatStream (streams r))).Nodup) :
    pairState []
        (runToolLoop ts jsonParse streams maxToolRounds history ctx).history = some []
    ∧ toolPairingClaim (runToolLoop ts jsonParse streams maxToolRounds history ctx).history := by
  obtain ⟨h1, h2⟩ := runToolLoopAux_preserves_pairing ts jsonParse streams hstreams
    maxToolRounds 0 history ctx 0 hp hn
  exact ⟨h1, pairState_toolPairingClaim
    (runToolLoop ts jsonParse streams maxToolRounds history ctx).history.length _
    le_rfl h1 h2⟩

/-- First fragment of slot 0 reusing the id "dup". -/
def dupDeltaSlot0 : ToolCallDelta :=
  { index := some 0, id := some "dup",
    function := some { name := some "t", arguments := some "x" } }

/-- First fragment of slot 1 reusing the id "dup". -/
def dupDeltaSlot1 : ToolCallDelta :=
  { index := some 1, id := some "dup",
    function := some { name := some "t", arguments := some "x" } }

/-- A stream declaring two invocations that share one id. -/
def dupStream : List StreamDelta :=
  [{ tool_calls := some [dupDeltaSlot0, dupDeltaSlot1] }]

/-- The constant oracle answering every round with `dupStream`. -/
def streamsDup : Nat → List StreamDelta := fun _ => dupStream

/-- The invocation both slots of `dupStream` assemble to. -/
def dupCall : ToolCallLike :=
  { id := "dup", type := "function", function := { name := "t", arguments := "x" } }

/-- The assistant turn the loop appends for `dupStream`. -/
def dupAssistantTurn : ChatMessage :=
  { role := "assistant", content := none, reasoning_content := none,
    tool_calls := some [dupCall, dupCall], tool_call_id := none }

/-- The tool turn the loop appends for each duplicate invocation. -/
def dupToolTurn : ChatMessage :=
  { role := "tool", content := some "Error: unknown tool 't'",
    reasoning_content := none, tool_calls := none, tool_call_id := some "dup" }

/-- Counterexample to C9 as stated: when one streamed turn declares two
invocations with the same id, the loop reaches a history whose tool
turns reference two invocations of the nearest preceding assistant
turn, not exactly one. -/
theorem history_pairing_counterexample :
    (runToolLoop witnessToolSystem witnessParse streamsDup 1 [] ()).history =
      [dupAssistantTurn, dupToolTurn, dupToolTurn]
    ∧ ¬ toolPairingClaim
        ((runToolLoop witnessToolSystem witnessParse streamsDup 1 [] ()).history) := by
  have hH : (runToolLoop witnessToolSystem witnessParse streamsDup 1 [] ()).history =
      [dupAssistantTurn, dupToolTurn, dupToolTurn] := by decide
  refine ⟨hH, ?_⟩
  intro hcl
  obtain ⟨a, hfind, hcount⟩ := hcl.1 [dupAssistantTurn] dupToolTurn [dupToolTurn]
    (by rw [hH]; rfl) (by decide)
  have hfind' : [dupAssistantTurn].reverse.find? isInvokingAssistant =
      some dupAssistantTurn := by decide
  rw [hfind'] at hfind
  injection hfind with ha
  rw [← ha] at hcount
  exact absurd hcount (by decide)

/-- Witness for C9 (amended): a one-round run over a well-formed stream
yields a history satisfying the pairing invariant. -/
theorem history_pairing_invariant_witness :
    pairState []
        (runToolLoop witnessToolSystem witnessParse streamsAlwaysCall 1 [] ()).history =
      some []
    ∧ toolPairingClaim
        ((runToolLoop witnessToolSystem witnessParse streamsAlwaysCall 1 [] ()).history) :=
  history_pairing_invariant witnessToolSystem witnessParse streamsAlwaysCall 1 [] ()
    (by decide) (by intro m hm; cases hm)
    (by
      intro r
      constructor
      · show (consumeChatStream loopCallStream).role = "assistant"
        decide
      · show (callIdsOf (consumeChatStream loopCallStream)).Nodup
        decide)
